import Mathlib

/-!
# Batch confirmation and shopping-state machine of a grocery-list bot

A shallow embedding, in Lean 4, of the core of a Telegram grocery-list
application: the product cache line parser (src/services/productCacheService.js),
the grocery item store (src/models/GroceryItem.js, an SQLite table modelled as a
list of rows in rowid order), the batch lifecycle operations
(src/services/groceryService.js and its auto-add variant), the AI parsing
service validation (aiService), the shopping status cycle (messageFormatter
keyboards) and the confirm-item callback handler.

JavaScript strings are modelled as Lean `String`/`List Char`; machine numbers as
`Nat`/`Int`; fallible operations return `Except`; the SQLite table is a
`List GroceryItem` in insertion (rowid) order, with `database.get` returning the
first matching row, `UPDATE ... WHERE id` rewriting every row of that id and
`DELETE ... WHERE id` filtering them out. `Array.prototype.sort` (a stable sort
by the comparator) is modelled by `List.insertionSort`, which is stable.
-/

namespace GroceryApp

/-! ## Characters and strings -/

/-- JS regex `\d`: an ASCII decimal digit. -/
def isDigitCh (c : Char) : Bool := '0' ≤ c && c ≤ '9'

/-- JS regex `\s` / `String.prototype.trim` whitespace, restricted to the common
ASCII whitespace characters. -/
def isSpaceCh (c : Char) : Bool :=
  c = ' ' || c = '\t' || c = '\n' || c = '\r' || c = '\x0b' || c = '\x0c'

/-- ASCII lowercasing: what SQLite `LOWER()` applies, and the fragment of
JS `toLowerCase()` exercised by this code base. -/
def asciiLower (c : Char) : Char :=
  if 'A' ≤ c && c ≤ 'Z' then Char.ofNat (c.toNat + 32) else c

/-- Lowercase a string character-wise. -/
def lowerStr (s : String) : String := (s.toList.map asciiLower).asString

/-- `String.prototype.trim` on a character list. -/
def trimList (l : List Char) : List Char :=
  ((l.dropWhile isSpaceCh).reverse.dropWhile isSpaceCh).reverse

/-- `String.prototype.trim`. -/
def trimStr (s : String) : String := (trimList s.toList).asString

/-- `parseInt` on a non-empty run of decimal digits. -/
def digitsToNat (ds : List Char) : Nat :=
  ds.foldl (fun n c => 10 * n + (c.toNat - '0'.toNat)) 0

/-- `text.split('\n')` on a character list. -/
def splitOnNl : List Char → List (List Char)
  | [] => [[]]
  | c :: cs =>
    if c = '\n' then [] :: splitOnNl cs
    else
      match splitOnNl cs with
      | [] => [[c]]
      | l :: ls => (c :: l) :: ls

/-! ## productCacheService.parseLineForProduct

The method matches the trimmed line against `^(\d+)\s+(.+)$` first and
`^(.+)\s+(\d+)$` second, falling back to quantity 1.  On a trimmed line the
first pattern succeeds exactly when a non-empty maximal digit prefix is
followed by at least one whitespace character and then at least one further
character; the second exactly when a non-empty maximal digit suffix is
preceded by at least one whitespace character with a non-empty remainder
before it (greedy backtracking makes the captured groups those maximal runs,
up to the `.trim()` that the code applies to the captured product text). -/

/-- Result of `parseLineForProduct`. -/
structure ParsedLine where
  quantity : Int
  productText : String
  deriving DecidableEq, Repr

/-- Match `^(\d+)\s+(.+)$` against a trimmed line, returning the parsed
quantity and the trimmed product capture. -/
def qtyFirstSplit (t : List Char) : Option (Nat × List Char) :=
  let ds := t.takeWhile isDigitCh
  let rest := t.dropWhile isDigitCh
  let ws := rest.takeWhile isSpaceCh
  let tail := rest.dropWhile isSpaceCh
  if ds ≠ [] ∧ ws ≠ [] ∧ tail ≠ [] then some (digitsToNat ds, trimList tail)
  else none

/-- Match `^(.+)\s+(\d+)$` against a trimmed line, returning the trimmed
product capture and the parsed quantity. -/
def qtyLastSplit (t : List Char) : Option (List Char × Nat) :=
  let rev := t.reverse
  let ds := rev.takeWhile isDigitCh
  let rest := rev.dropWhile isDigitCh
  let ws := rest.takeWhile isSpaceCh
  let head := rest.dropWhile isSpaceCh
  if ds ≠ [] ∧ ws ≠ [] ∧ head ≠ [] then
    some (trimList head.reverse, digitsToNat ds.reverse)
  else none

/-- The pattern-2 fallback of `parseLineForProduct`. -/
def parseLineQtyLast (t : List Char) : ParsedLine :=
  match qtyLastSplit t with
  | some (p, q) => if p ≠ [] then ⟨(q : Int), p.asString⟩ else ⟨1, t.asString⟩
  | none => ⟨1, t.asString⟩

/-- `productCacheService.parseLineForProduct`. -/
def parseLineForProduct (line : String) : ParsedLine :=
  let t := trimList line.toList
  match qtyFirstSplit t with
  | some (q, p) => if p ≠ [] then ⟨(q : Int), p.asString⟩ else parseLineQtyLast t
  | none => parseLineQtyLast t

/-! ### Helper lemmas about the line parser -/

lemma dropWhile_head_false {p : Char → Bool} :
    ∀ (l : List Char) {a l'}, l.dropWhile p = a :: l' → p a = false := by
  intro l
  induction l with
  | nil => intro a l' h; simp [List.dropWhile] at h
  | cons b t ih =>
    intro a l' h
    by_cases hb : p b
    · rw [List.dropWhile_cons_of_pos hb] at h
      exact ih h
    · rw [List.dropWhile_cons_of_neg hb] at h
      cases h
      simpa using hb

lemma trimList_ne_nil_of_head {a : Char} {l : List Char} (ha : isSpaceCh a = false) :
    trimList (a :: l) ≠ [] := by
  intro hnil
  unfold trimList at hnil
  rw [List.dropWhile_cons_of_neg (by simp [ha]), List.reverse_eq_nil_iff,
    List.dropWhile_eq_nil_iff] at hnil
  have := hnil a (by simp)
  simp [ha] at this

lemma qtyFirstSplit_product_ne_nil {t : List Char} {q : Nat} {p : List Char}
    (h : qtyFirstSplit t = some (q, p)) : p ≠ [] := by
  unfold qtyFirstSplit at h
  dsimp only at h
  split at h
  · rename_i hcond
    obtain ⟨-, -, htail⟩ := hcond
    cases hp : (t.dropWhile isDigitCh).dropWhile isSpaceCh with
    | nil => exact absurd hp htail
    | cons a l' =>
      have ha : isSpaceCh a = false := dropWhile_head_false _ hp
      cases h
      rw [hp]
      exact trimList_ne_nil_of_head ha
  · exact absurd h (by simp)

/-! ## Claims about the line parser -/

/-- **C9**: parseLine splits a line into a leading-or-trailing integer quantity
and the remaining product text, defaulting the quantity to 1 when no
space-separated digit token is adjacent; ties are broken by attempting the
digits-then-text pattern before text-then-digits, so on a line matching both
patterns the leading quantity wins (for example "2 pommes 3" parses as
quantity 2 with product "pommes 3"). -/
theorem parseLine_quantity_spec :
    parseLineForProduct "3 tomates" = ⟨3, "tomates"⟩
      ∧ parseLineForProduct "tomates 3" = ⟨3, "tomates"⟩
      ∧ parseLineForProduct "tomates" = ⟨1, "tomates"⟩
      ∧ parseLineForProduct "2 pommes 3" = ⟨2, "pommes 3"⟩
      ∧ ∀ (line : String) (q : Nat) (p : List Char),
          qtyFirstSplit (trimList line.toList) = some (q, p) →
          parseLineForProduct line = ⟨(q : Int), p.asString⟩ := by
  refine ⟨by decide, by decide, by decide, by decide, ?_⟩
  intro line q p h
  unfold parseLineForProduct
  dsimp only
  rw [h]
  simp [qtyFirstSplit_product_ne_nil h]

/-- Witness for the hypothesis-bearing part of `parseLine_quantity_spec`:
the line "2 pommes 3" matches the digits-then-text pattern with quantity 2,
and the parser indeed returns the leading quantity. -/
theorem parseLine_quantity_spec_witness :
    qtyFirstSplit (trimList ("2 pommes 3" : String).toList)
        = some (2, ("pommes 3" : String).toList)
      ∧ parseLineForProduct "2 pommes 3" = ⟨(2 : Int), "pommes 3"⟩ :=
  ⟨by decide, parseLine_quantity_spec.2.2.2.2 "2 pommes 3" 2
    ("pommes 3" : String).toList (by decide)⟩

/-! ## The item store (src/models/GroceryItem.js)

The `grocery_items` SQLite table is a list of rows in rowid (insertion) order.
`database.get` returns the first matching row; an UPDATE rewrites every row of
the given id, a DELETE removes them.  The GroceryItem constructor and `save()`
handle only `article`, `quantity`, `category`, `status` and `batch_id` (plus the
timestamps); the `note` assignment done in `editItem` is never persisted, so
rows carry no note field.  The constructor coerces a falsy quantity
(`data.quantity || 1`) to 1; this coercion is applied at the creation sites
modelled here. -/

/-- Item lifecycle status strings. -/
inductive Status where
  | pending
  | selected
  | found
  | not_found
  | confirming
  deriving DecidableEq, Repr

/-- A row of the grocery_items table, as materialised by the GroceryItem
constructor. -/
structure GroceryItem where
  id : Nat
  article : String
  quantity : Int
  category : String
  status : Status
  batch_id : Option String
  createdAt : Nat
  deriving DecidableEq, Repr

/-- The grocery_items table in rowid order. -/
abbrev Store := List GroceryItem

/-- `GroceryItem.findById`: `SELECT * WHERE id = ?` via `database.get`. -/
def findById (s : Store) (itemId : Nat) : Option GroceryItem :=
  s.find? (fun it => it.id = itemId)

/-- `GroceryItem.findByArticle`: first row with the same lowercased article. -/
def findByArticle (s : Store) (article : String) : Option GroceryItem :=
  s.find? (fun it => lowerStr it.article = lowerStr article)

/-- `item.save()` on an item that already has an id:
`UPDATE grocery_items SET article, quantity, category, status, batch_id WHERE id`. -/
def updateById (s : Store) (x : GroceryItem) : Store :=
  s.map (fun it => if it.id = x.id then x else it)

/-- `item.delete()`, the store part: `DELETE FROM grocery_items WHERE id = ?`. -/
def deleteById (s : Store) (itemId : Nat) : Store :=
  s.filter (fun it => it.id ≠ itemId)

/-- `GroceryItem.updateStatus`: `UPDATE grocery_items SET status = ? WHERE id = ?`. -/
def updateStatusById (s : Store) (itemId : Nat) (st : Status) : Store :=
  s.map (fun it => if it.id = itemId then { it with status := st } else it)

/-- The relation by which `findAll` orders rows: `ORDER BY created_at DESC`. -/
def createdDesc (a b : GroceryItem) : Prop := b.createdAt ≤ a.createdAt

instance : DecidableRel createdDesc := fun a b => Nat.decLe _ _

instance : IsTotal GroceryItem createdDesc :=
  ⟨fun a b => (Nat.le_total b.createdAt a.createdAt).elim Or.inl Or.inr⟩

instance : IsTrans GroceryItem createdDesc :=
  ⟨fun _ _ _ hab hbc => Nat.le_trans hbc hab⟩

/-- The relation by which `findByBatchId*` order rows: `ORDER BY created_at ASC`. -/
def createdAsc (a b : GroceryItem) : Prop := a.createdAt ≤ b.createdAt

instance : DecidableRel createdAsc := fun a b => Nat.decLe _ _

instance : IsTotal GroceryItem createdAsc :=
  ⟨fun a b => (Nat.le_total a.createdAt b.createdAt).elim Or.inl Or.inr⟩

instance : IsTrans GroceryItem createdAsc :=
  ⟨fun _ _ _ hab hbc => Nat.le_trans hab hbc⟩

/-- `GroceryItem.findAll`: `SELECT * ORDER BY created_at DESC`. -/
def findAll (s : Store) : List GroceryItem :=
  s.insertionSort createdDesc

/-- `GroceryItem.findByBatchIdAndStatus`:
`SELECT * WHERE batch_id = ? AND status = ? ORDER BY created_at ASC`. -/
def findByBatchIdAndStatus (s : Store) (batchId : String) (st : Status) :
    List GroceryItem :=
  (s.filter (fun it => it.batch_id = some batchId ∧ it.status = st)).insertionSort createdAsc

/-! ## Batch lifecycle (src/services/groceryService.js) -/

/-- Errors thrown by the grocery service operations. -/
inductive ServiceError where
  | notFound (itemId : Nat)
  | wrongStatus (itemId : Nat) (st : Status)
  deriving DecidableEq, Repr

/-- `groceryService.confirmItemFromBatch` (identical in the explicit-confirmation
service and its auto-add variant): throws NotFound for a missing id; returns an
already `pending` item unchanged; otherwise requires `confirming` status, merges
into an existing same-name row of a different batch (summing quantities,
overwriting the category, reassigning the batch id, resetting a `found` or
`not_found` status to `pending`, then deleting the confirming row), or else
flips the confirming item itself to `pending` in place. -/
def confirmItemFromBatch (s : Store) (itemId : Nat) :
    Except ServiceError (GroceryItem × Store) :=
  match findById s itemId with
  | none => .error (.notFound itemId)
  | some tempItem =>
    if tempItem.status = .confirming then
      match findByArticle s tempItem.article with
      | some existingItem =>
        if existingItem.batch_id ≠ tempItem.batch_id then
          let merged : GroceryItem :=
            { existingItem with
              quantity := existingItem.quantity + tempItem.quantity
              category := tempItem.category
              batch_id := tempItem.batch_id
              status :=
                if existingItem.status = .not_found ∨ existingItem.status = .found then
                  .pending
                else existingItem.status }
          .ok (merged, deleteById (updateById s merged) tempItem.id)
        else
          let committed : GroceryItem := { tempItem with status := .pending }
          .ok (committed, updateById s committed)
      | none =>
        let committed : GroceryItem := { tempItem with status := .pending }
        .ok (committed, updateById s committed)
    else if tempItem.status = .pending then .ok (tempItem, s)
    else .error (.wrongStatus itemId tempItem.status)

/-- `groceryService.editItem`: direct field overwrite of the targeted item, no
merge logic and no clamping of the quantity.  The `newNote` argument is set on
the in-memory object only; the model drops it because the GroceryItem
constructor and `save()` do not persist a note column. -/
def editItem (s : Store) (itemId : Nat) (newCategory : String) (newQuantity : Int)
    (_newNote : String) : Except ServiceError (GroceryItem × Store) :=
  match findById s itemId with
  | none => .error (.notFound itemId)
  | some item =>
    let updated : GroceryItem :=
      { item with category := newCategory, quantity := newQuantity }
    .ok (updated, updateById s updated)

/-- One step of `cancelBatch`: `item.delete()` reports success when a row was
removed, and the running count is incremented on success. -/
def cancelBatchStep (acc : Nat × Store) (v : GroceryItem) : Nat × Store :=
  ((if acc.2.any (fun it => it.id = v.id) then acc.1 + 1 else acc.1),
    deleteById acc.2 v.id)

/-- `groceryService.cancelBatch` of the explicit-confirmation service: deletes
every item of the batch that is still in `confirming` status, one `delete()` at
a time, and returns the number of successful deletions together with the
resulting store. -/
def cancelBatch (s : Store) (batchId : String) : Nat × Store :=
  (findByBatchIdAndStatus s batchId .confirming).foldl cancelBatchStep (0, s)

/-! ## Shopping status cycle (messageFormatter and the item-status callback) -/

/-- The next status wired into each item button by
`createShoppingListKeyboard`: selected taps to found, not_found taps back to
pending, and everything else (the pending default case) taps to selected. -/
def nextStatus : Status → Status
  | .selected => .found
  | .not_found => .pending
  | _ => .selected

/-- A tap on an item button: the keyboard carries `nextStatus` of the item
status at render time, and the callback applies it through
`groceryService.updateItemStatus`. -/
def advanceStatus (s : Store) (itemId : Nat) : Store :=
  match findById s itemId with
  | none => s
  | some it => updateStatusById s itemId (nextStatus it.status)

/-! ## The confirm-item callback handler (callbackHandlers.handleConfirmItem) -/

/-- Outcome of the confirm-item callback, as acknowledged to the user. -/
inductive ConfirmOutcome where
  | staleNotFound
  | confirmed (item : GroceryItem)
  | failed
  deriving DecidableEq, Repr

/-- `handleConfirmItem(bot, query, batchId, itemId)`: re-loads the item and
answers with a stale-action notice, mutating nothing, when the item does not
exist or its batch id differs from the one in the callback; only then does it
run `confirmItemFromBatch`. -/
def handleConfirmItem (s : Store) (batchId : String) (itemId : Nat) :
    ConfirmOutcome × Store :=
  match findById s itemId with
  | none => (.staleNotFound, s)
  | some tempItem =>
    if tempItem.batch_id ≠ some batchId then (.staleNotFound, s)
    else
      match confirmItemFromBatch s itemId with
      | .ok (item, s') => (.confirmed item, s')
      | .error _ => (.failed, s)

/-! ## Store helper lemmas -/

lemma findById_id {s : Store} {itemId : Nat} {it : GroceryItem}
    (h : findById s itemId = some it) : it.id = itemId := by
  have := List.find?_some h
  simpa using this

lemma findById_mem {s : Store} {itemId : Nat} {it : GroceryItem}
    (h : findById s itemId = some it) : it ∈ s :=
  List.mem_of_find?_eq_some h

lemma findByArticle_prop {s : Store} {a : String} {it : GroceryItem}
    (h : findByArticle s a = some it) : lowerStr it.article = lowerStr a := by
  have := List.find?_some h
  simpa using this

lemma findByArticle_mem {s : Store} {a : String} {it : GroceryItem}
    (h : findByArticle s a = some it) : it ∈ s :=
  List.mem_of_find?_eq_some h

lemma eq_of_id_eq_of_nodup {s : Store} (hid : (s.map (fun it => it.id)).Nodup)
    {a b : GroceryItem} (ha : a ∈ s) (hb : b ∈ s) (h : a.id = b.id) : a = b :=
  List.inj_on_of_nodup_map hid ha hb h

lemma findById_cons_pos {a : GroceryItem} {t : Store} {itemId : Nat}
    (ha : a.id = itemId) : findById (a :: t) itemId = some a := by
  simp [findById, List.find?_cons_of_pos, ha]

lemma findById_cons_neg {a : GroceryItem} {t : Store} {itemId : Nat}
    (ha : ¬a.id = itemId) : findById (a :: t) itemId = findById t itemId := by
  simp only [findById]
  exact List.find?_cons_of_neg _ (by simpa using ha)

lemma updateStatusById_cons {a : GroceryItem} {t : Store} {itemId : Nat} {st : Status} :
    updateStatusById (a :: t) itemId st
      = (if a.id = itemId then { a with status := st } else a) :: updateStatusById t itemId st :=
  rfl

lemma findById_updateStatusById {s : Store} {itemId : Nat} {it : GroceryItem}
    (h : findById s itemId = some it) (st : Status) :
    findById (updateStatusById s itemId st) itemId = some { it with status := st } := by
  induction s with
  | nil => simp [findById] at h
  | cons a t ih =>
    by_cases ha : a.id = itemId
    · rw [findById_cons_pos ha] at h
      cases h
      rw [updateStatusById_cons, if_pos ha]
      exact findById_cons_pos (by simpa using ha)
    · rw [findById_cons_neg ha] at h
      rw [updateStatusById_cons, if_neg ha, findById_cons_neg ha]
      exact ih h

/-! ## Claims about confirmItemFromBatch -/

/-- After a merge writes `merged` over the existing row and deletes the
confirming row, exactly one row with the merged canonical name remains,
provided row ids are unique and the only rows bearing that name were the
confirming and the existing one. -/
lemma countP_after_merge (s : Store) (temp exist merged : GroceryItem)
    (hid : (s.map (fun it => it.id)).Nodup)
    (huniq : ∀ it ∈ s, lowerStr it.article = lowerStr temp.article →
      it.id = temp.id ∨ it.id = exist.id)
    (hexist_mem : exist ∈ s)
    (hneid : exist.id ≠ temp.id)
    (hmid : merged.id = exist.id)
    (hmart : lowerStr merged.article = lowerStr temp.article) :
    (deleteById (updateById s merged) temp.id).countP
        (fun it => lowerStr it.article = lowerStr temp.article) = 1 := by
  rw [deleteById, List.countP_filter, updateById, List.countP_map]
  have hcongr : ∀ it ∈ s,
      ((fun b => decide (lowerStr b.article = lowerStr temp.article)
          && decide (b.id ≠ temp.id)) ∘
        fun b => if b.id = merged.id then merged else b) it
        ↔ (fun b => decide (b.id = exist.id)) it := by
    intro it hmem
    have hneid' : ¬temp.id = exist.id := fun hh => hneid hh.symm
    by_cases hit : it.id = merged.id
    · simp only [Function.comp, if_pos hit]
      simp [hmart, hneid, hit, hmid]
    · simp only [Function.comp, if_neg hit]
      rw [hmid] at hit
      by_cases hart' : lowerStr it.article = lowerStr temp.article
      · rcases huniq it hmem hart' with h | h
        · simp [h, hit, hneid']
        · exact absurd h hit
      · simp [hart', hit]
  rw [List.countP_congr hcongr]
  have hcount : s.countP (fun b => decide (b.id = exist.id))
      = (s.map (fun it => it.id)).count exist.id := by
    rw [List.count_eq_countP, List.countP_map]
    exact List.countP_congr (fun x _ => by simp [Function.comp, beq_iff_eq])
  rw [hcount]
  exact List.count_eq_one_of_mem hid (List.mem_map_of_mem _ hexist_mem)

/-- **C1**: confirming a batch item whose canonical name matches (case
insensitively) an existing item of a different batch merges instead of
duplicating: the single resulting item carries the summed quantity, the
incoming category and the confirming batch id, the confirming row is deleted,
and (under the active-uniqueness invariant that only the two rows bear that
canonical name) exactly one row with that name remains. -/
theorem confirmItem_merges (s : Store) (itemId : Nat) (temp exist : GroceryItem)
    (hid : (s.map (fun it => it.id)).Nodup)
    (huniq : ∀ it ∈ s, lowerStr it.article = lowerStr temp.article →
      it.id = temp.id ∨ it.id = exist.id)
    (hfind : findById s itemId = some temp)
    (hst : temp.status = .confirming)
    (hart : findByArticle s temp.article = some exist)
    (hbatch : exist.batch_id ≠ temp.batch_id) :
    ∃ merged s',
      confirmItemFromBatch s itemId = .ok (merged, s')
        ∧ merged.id = exist.id
        ∧ merged.quantity = exist.quantity + temp.quantity
        ∧ merged.category = temp.category
        ∧ merged.batch_id = temp.batch_id
        ∧ (∀ it ∈ s', it.id ≠ temp.id)
        ∧ s'.countP (fun it => lowerStr it.article = lowerStr temp.article) = 1 := by
  have htemp_mem : temp ∈ s := findById_mem hfind
  have hexist_mem : exist ∈ s := findByArticle_mem hart
  have hne : exist ≠ temp := fun h => hbatch (by rw [h])
  have hneid : exist.id ≠ temp.id := fun h => hne (eq_of_id_eq_of_nodup hid hexist_mem htemp_mem h)
  have hname : lowerStr exist.article = lowerStr temp.article := findByArticle_prop hart
  unfold confirmItemFromBatch
  rw [hfind]
  dsimp only
  rw [hst, hart]
  dsimp only
  rw [if_pos rfl, if_pos hbatch]
  refine ⟨_, _, rfl, rfl, rfl, rfl, rfl, ?_, ?_⟩
  · intro it hmem
    simp only [deleteById, List.mem_filter] at hmem
    simpa using hmem.2
  · exact countP_after_merge s temp exist _ hid huniq hexist_mem hneid rfl hname

/-- Witness for `confirmItem_merges`: an existing pending item
(lait, quantity 2) and a confirming item (lait, quantity 1) from another
batch merge into a single row of quantity 3. -/
theorem confirmItem_merges_witness :
    ∃ merged s',
      confirmItemFromBatch
          [⟨1, "lait", 2, "Produits laitiers", .pending, some "b1", 0⟩,
            ⟨2, "lait", 1, "Produits laitiers", .confirming, some "b2", 1⟩] 2
        = .ok (merged, s')
        ∧ merged.id = 1
        ∧ merged.quantity = 3
        ∧ merged.category = "Produits laitiers"
        ∧ merged.batch_id = some "b2"
        ∧ (∀ it ∈ s', it.id ≠ 2)
        ∧ s'.countP (fun it => lowerStr it.article = lowerStr "lait") = 1 := by
  have h := confirmItem_merges
      [⟨1, "lait", 2, "Produits laitiers", .pending, some "b1", 0⟩,
        ⟨2, "lait", 1, "Produits laitiers", .confirming, some "b2", 1⟩] 2
      ⟨2, "lait", 1, "Produits laitiers", .confirming, some "b2", 1⟩
      ⟨1, "lait", 2, "Produits laitiers", .pending, some "b1", 0⟩
      (by decide) (by decide) (by decide) (by decide) (by decide) (by decide)
  simpa using h

/-- **C2**: when the existing same-name item matched during confirmation has
status found or not_found, the merge resets its status to pending. -/
theorem confirmItem_merge_resets_found (s : Store) (itemId : Nat)
    (temp exist : GroceryItem)
    (hfind : findById s itemId = some temp)
    (hst : temp.status = .confirming)
    (hart : findByArticle s temp.article = some exist)
    (hbatch : exist.batch_id ≠ temp.batch_id)
    (hfound : exist.status = .found ∨ exist.status = .not_found) :
    ∃ merged s',
      confirmItemFromBatch s itemId = .ok (merged, s')
        ∧ merged.id = exist.id
        ∧ merged.status = .pending := by
  unfold confirmItemFromBatch
  rw [hfind]
  dsimp only
  rw [hst, hart]
  dsimp only
  rw [if_pos rfl, if_pos hbatch]
  refine ⟨_, _, rfl, rfl, ?_⟩
  rcases hfound with h | h <;> simp [h]

/-- Witness for `confirmItem_merge_resets_found`: an active item with status
found and name pain, merged against a confirming item of the same name, ends
with status pending. -/
theorem confirmItem_merge_resets_found_witness :
    ∃ merged s',
      confirmItemFromBatch
          [⟨1, "pain", 1, "Boulangerie", .found, some "b1", 0⟩,
            ⟨2, "pain", 1, "Boulangerie", .confirming, some "b2", 1⟩] 2
        = .ok (merged, s')
        ∧ merged.id = 1
        ∧ merged.status = .pending := by
  have h := confirmItem_merge_resets_found
      [⟨1, "pain", 1, "Boulangerie", .found, some "b1", 0⟩,
        ⟨2, "pain", 1, "Boulangerie", .confirming, some "b2", 1⟩] 2
      ⟨2, "pain", 1, "Boulangerie", .confirming, some "b2", 1⟩
      ⟨1, "pain", 1, "Boulangerie", .found, some "b1", 0⟩
      (by decide) (by decide) (by decide) (by decide) (by decide)
  simpa using h

/-- **C3**: confirmItem is idempotent on an already-committed (pending) item:
it returns the existing item and leaves the store untouched, so a second call
on the same item id returns the same committed item against the same store. -/
theorem confirmItem_idempotent (s : Store) (itemId : Nat) (it : GroceryItem)
    (hfind : findById s itemId = some it)
    (hst : it.status = .pending) :
    confirmItemFromBatch s itemId = .ok (it, s) := by
  unfold confirmItemFromBatch
  rw [hfind]
  simp [hst]

/-- Witness for `confirmItem_idempotent`: confirming a pending item returns
it unchanged with an unchanged store. -/
theorem confirmItem_idempotent_witness :
    confirmItemFromBatch [⟨1, "riz", 1, "Épicerie", .pending, some "b1", 0⟩] 1
      = .ok (⟨1, "riz", 1, "Épicerie", .pending, some "b1", 0⟩,
          [⟨1, "riz", 1, "Épicerie", .pending, some "b1", 0⟩]) :=
  confirmItem_idempotent _ 1 _ (by decide) (by decide)

/-! ## Claims about the confirm-item handler -/

/-- **C5**: a confirm-item callback whose item id does not exist, or whose
item belongs to a different batch than the one named in the callback, is
answered with the stale NotFound notice and modifies no item state. -/
theorem staleConfirm_rejected (s : Store) (batchId : String) (itemId : Nat)
    (h : findById s itemId = none
      ∨ ∃ it, findById s itemId = some it ∧ it.batch_id ≠ some batchId) :
    handleConfirmItem s batchId itemId = (.staleNotFound, s) := by
  unfold handleConfirmItem
  rcases h with h | ⟨it, hfind, hb⟩
  · rw [h]
  · rw [hfind]
    simp [hb]

/-- Witness for `staleConfirm_rejected`: confirming against batch X an item
that belongs to batch Y fails with the stale notice and changes nothing. -/
theorem staleConfirm_rejected_witness :
    handleConfirmItem [⟨1, "sel", 1, "Épicerie", .confirming, some "Y", 0⟩] "X" 1
      = (.staleNotFound, [⟨1, "sel", 1, "Épicerie", .confirming, some "Y", 0⟩]) :=
  staleConfirm_rejected _ "X" 1
    (Or.inr ⟨⟨1, "sel", 1, "Épicerie", .confirming, some "Y", 0⟩, by decide, by decide⟩)

/-! ## Claims about the shopping status cycle -/

/-- **C7**: tapping advances an item one step along the cycle
pending → selected → found, and one tap on a not_found item returns it to
pending. -/
theorem advanceStatus_cycle (s : Store) (itemId : Nat) (it : GroceryItem)
    (hfind : findById s itemId = some it) :
    (it.status = .pending →
      ∃ it1, findById (advanceStatus s itemId) itemId = some it1
        ∧ it1.status = .selected
        ∧ ∃ it2,
            findById (advanceStatus (advanceStatus s itemId) itemId) itemId = some it2
              ∧ it2.status = .found)
      ∧ (it.status = .not_found →
        ∃ it1, findById (advanceStatus s itemId) itemId = some it1
          ∧ it1.status = .pending) := by
  constructor
  · intro hp
    have h1 : findById (advanceStatus s itemId) itemId
        = some { it with status := .selected } := by
      unfold advanceStatus
      rw [hfind]
      dsimp only
      rw [hp]
      exact findById_updateStatusById hfind _
    refine ⟨_, h1, rfl, ?_⟩
    have h2 : findById (advanceStatus (advanceStatus s itemId) itemId) itemId
        = some { it with status := .found } := by
      generalize hs1 : advanceStatus s itemId = s1 at h1
      unfold advanceStatus
      rw [h1]
      dsimp only
      exact findById_updateStatusById h1 _
    exact ⟨_, h2, rfl⟩
  · intro hp
    have h1 : findById (advanceStatus s itemId) itemId
        = some { it with status := .pending } := by
      unfold advanceStatus
      rw [hfind]
      dsimp only
      rw [hp]
      exact findById_updateStatusById hfind _
    exact ⟨_, h1, rfl⟩

/-- Witness for `advanceStatus_cycle`: a pending item taps to selected and
then to found; a not_found item taps back to pending. -/
theorem advanceStatus_cycle_witness :
    (∃ it1,
      findById (advanceStatus [⟨1, "eau", 1, "Boissons", .pending, none, 0⟩] 1) 1
          = some it1
        ∧ it1.status = .selected
        ∧ ∃ it2,
            findById
              (advanceStatus
                (advanceStatus [⟨1, "eau", 1, "Boissons", .pending, none, 0⟩] 1) 1) 1
              = some it2
            ∧ it2.status = .found)
      ∧ ∃ it1,
          findById (advanceStatus [⟨1, "thé", 1, "Boissons", .not_found, none, 0⟩] 1) 1
            = some it1
          ∧ it1.status = .pending :=
  ⟨(advanceStatus_cycle [⟨1, "eau", 1, "Boissons", .pending, none, 0⟩] 1
      ⟨1, "eau", 1, "Boissons", .pending, none, 0⟩ (by decide)).1 rfl,
    (advanceStatus_cycle [⟨1, "thé", 1, "Boissons", .not_found, none, 0⟩] 1
      ⟨1, "thé", 1, "Boissons", .not_found, none, 0⟩ (by decide)).2 rfl⟩

/-! ## Claims about cancelBatch (explicit-confirmation workflow) -/

lemma cancelBatch_fold_store (vs : List GroceryItem) :
    ∀ (n : Nat) (s : Store),
      (vs.foldl cancelBatchStep (n, s)).2
        = s.filter (fun it => !vs.any (fun v => v.id = it.id)) := by
  induction vs with
  | nil => intro n s; simp
  | cons v vs ih =>
    intro n s
    rw [List.foldl_cons]
    have hstep : cancelBatchStep (n, s) v
        = ((if s.any (fun it => it.id = v.id) then n + 1 else n), deleteById s v.id) := rfl
    rw [hstep, ih, deleteById, List.filter_filter]
    apply List.filter_congr
    intro it _
    by_cases h : v.id = it.id
    · simp [h]
    · have h' : ¬it.id = v.id := fun hh => h hh.symm
      simp [h, h', Bool.and_comm]

lemma cancelBatch_fold_count (vs : List GroceryItem) :
    ∀ (n : Nat) (s : Store),
      (vs.map (fun v => v.id)).Nodup →
      (∀ v ∈ vs, ∃ it ∈ s, it.id = v.id) →
      (vs.foldl cancelBatchStep (n, s)).1 = n + vs.length := by
  induction vs with
  | nil => intro n s _ _; simp
  | cons v vs ih =>
    intro n s hnd hw
    rw [List.foldl_cons]
    have hv : s.any (fun it => it.id = v.id) = true := by
      obtain ⟨it, hit, he⟩ := hw v (List.mem_cons_self v vs)
      exact List.any_eq_true.mpr ⟨it, hit, by simp [he]⟩
    have hstep : cancelBatchStep (n, s) v
        = ((if s.any (fun it => it.id = v.id) then n + 1 else n), deleteById s v.id) := rfl
    rw [hstep, hv, if_pos rfl]
    rw [List.map_cons, List.nodup_cons] at hnd
    rw [ih (n + 1) _ hnd.2 ?_]
    · simp [Nat.add_comm, Nat.add_assoc, Nat.add_left_comm]
    · intro v' hv'
      obtain ⟨it, hit, he⟩ := hw v' (List.mem_cons_of_mem v hv')
      refine ⟨it, ?_, he⟩
      have hne : v'.id ≠ v.id := by
        intro hh
        exact hnd.1 (hh ▸ List.mem_map_of_mem (fun x => x.id) hv')
      simp [deleteById, List.mem_filter, hit, he, hne]

/-- **C4**: in the explicit-confirmation workflow, cancelBatch deletes exactly
the items of the batch still in confirming status (the returned count is their
number) and leaves every other row — in particular every already-committed
pending item of the same batch — in place. -/
theorem cancelBatch_scope (s : Store) (batchId : String)
    (hid : (s.map (fun it => it.id)).Nodup) :
    (cancelBatch s batchId).1
        = (s.filter (fun it => it.batch_id = some batchId ∧ it.status = .confirming)).length
      ∧ (cancelBatch s batchId).2
          = s.filter (fun it => ¬(it.batch_id = some batchId ∧ it.status = .confirming))
      ∧ ∀ it ∈ s, it.batch_id = some batchId → it.status = .pending →
          it ∈ (cancelBatch s batchId).2 := by
  have hperm : List.Perm (findByBatchIdAndStatus s batchId .confirming)
      (s.filter (fun it => it.batch_id = some batchId ∧ it.status = .confirming)) :=
    List.perm_insertionSort _ _
  have hvict_sub : List.Sublist
      (s.filter (fun it => it.batch_id = some batchId ∧ it.status = .confirming)) s :=
    List.filter_sublist s
  have hvict_nodup : ((findByBatchIdAndStatus s batchId .confirming).map
      (fun v => v.id)).Nodup :=
    ((hperm.map (fun v => v.id)).nodup_iff).mpr ((hvict_sub.map _).nodup hid)
  have hany : ∀ it ∈ s,
      ((findByBatchIdAndStatus s batchId .confirming).any (fun v => v.id = it.id))
        = decide (it.batch_id = some batchId ∧ it.status = .confirming) := by
    intro it hmem
    by_cases hp : it.batch_id = some batchId ∧ it.status = .confirming
    · have : (findByBatchIdAndStatus s batchId .confirming).any (fun v => v.id = it.id)
          = true := by
        refine List.any_eq_true.mpr ⟨it, ?_, by simp⟩
        exact hperm.mem_iff.mpr (List.mem_filter.mpr ⟨hmem, by simpa using hp⟩)
      simp [this, hp]
    · have : (findByBatchIdAndStatus s batchId .confirming).any (fun v => v.id = it.id)
          = false := by
        rw [Bool.eq_false_iff]
        intro hc
        obtain ⟨v, hv, hvid⟩ := List.any_eq_true.mp hc
        have hv' := hperm.mem_iff.mp hv
        obtain ⟨hvs, hvp⟩ := List.mem_filter.mp hv'
        have : v = it := eq_of_id_eq_of_nodup hid hvs hmem (by simpa using hvid)
        exact hp (by simpa [this] using hvp)
      simp [this, hp]
  have hstore : (cancelBatch s batchId).2
      = s.filter (fun it => ¬(it.batch_id = some batchId ∧ it.status = .confirming)) := by
    rw [cancelBatch, cancelBatch_fold_store]
    apply List.filter_congr
    intro it hmem
    rw [hany it hmem]
    by_cases hp : it.batch_id = some batchId ∧ it.status = .confirming <;> simp [hp]
  refine ⟨?_, hstore, ?_⟩
  · rw [cancelBatch, cancelBatch_fold_count _ 0 s hvict_nodup ?_, hperm.length_eq]
    · simp
    · intro v hv
      exact ⟨v, List.mem_of_mem_filter (hperm.mem_iff.mp hv), rfl⟩
  · intro it hmem hb hp
    rw [hstore]
    refine List.mem_filter.mpr ⟨hmem, ?_⟩
    simp [hp]

/-- A concrete store for exercising `cancelBatch`: batch B holds five items of
which two are already committed (pending) and three are still confirming. -/
def cancelDemoStore : Store :=
  [⟨1, "lait", 1, "Produits laitiers", .pending, some "B", 1⟩,
    ⟨2, "pain", 1, "Boulangerie", .pending, some "B", 2⟩,
    ⟨3, "riz", 1, "Épicerie", .confirming, some "B", 3⟩,
    ⟨4, "eau", 1, "Boissons", .confirming, some "B", 4⟩,
    ⟨5, "sel", 1, "Épicerie", .confirming, some "B", 5⟩]

/-- Witness for `cancelBatch_scope`: cancelling batch B after 2 of its 5 items
were confirmed deletes exactly the 3 unconfirmed items and keeps the 2
committed ones pending. -/
theorem cancelBatch_scope_witness :
    (cancelBatch cancelDemoStore "B").1 = 3
      ∧ (cancelBatch cancelDemoStore "B").2
          = [⟨1, "lait", 1, "Produits laitiers", .pending, some "B", 1⟩,
              ⟨2, "pain", 1, "Boulangerie", .pending, some "B", 2⟩] := by
  have h := cancelBatch_scope cancelDemoStore "B" (by decide)
  exact ⟨h.1.trans (by decide), h.2.1.trans (by decide)⟩

/-! ## Claims about editItem and the quantity clamp

`editItem` overwrites the stored quantity with whatever integer it is given;
no clamping happens in the service or the model layer.  The only
minimum-of-1 logic in the source is in `createEditKeyboard`, whose quantity
row wires the decrement button to `Math.max(1, currentQuantity - 1)` and the
increment button to `currentQuantity + 1`. -/

/-- The quantity carried by the decrement button of `createEditKeyboard`. -/
def decQtyCallback (q : Int) : Int := max 1 (q - 1)

/-- The quantity carried by the increment button of `createEditKeyboard`. -/
def incQtyCallback (q : Int) : Int := q + 1

/-- **C10 (amended)**: editItem stores the supplied category and quantity
verbatim — it does not clamp — while the minimum-of-1 clamp lives in the edit
keyboard: the decrement callback always carries a quantity of at least 1, and
the increment callback preserves quantities at least 1. -/
theorem editItem_stores_quantity_verbatim (s : Store) (itemId : Nat)
    (cat : String) (q : Int) (note : String) (upd : GroceryItem) (s' : Store)
    (h : editItem s itemId cat q note = .ok (upd, s')) :
    upd.quantity = q ∧ upd.category = cat
      ∧ (∀ qc : Int, 1 ≤ decQtyCallback qc)
      ∧ (∀ qc : Int, 1 ≤ qc → 1 ≤ incQtyCallback qc) := by
  refine ⟨?_, ?_, fun qc => le_max_left 1 (qc - 1), fun qc hqc => by
    simp only [incQtyCallback]; omega⟩
    <;> (
      cases hfind : findById s itemId with
      | none => rw [editItem, hfind] at h; cases h
      | some item =>
        rw [editItem, hfind] at h
        cases h
        rfl)

/-- Witness for `editItem_stores_quantity_verbatim`: an edit with quantity 7
stores exactly 7 and the keyboard clamp facts hold. -/
theorem editItem_stores_quantity_verbatim_witness :
    editItem [⟨1, "pain", 2, "Boulangerie", .pending, none, 0⟩] 1 "Épicerie" 7 ""
        = .ok (⟨1, "pain", 7, "Épicerie", .pending, none, 0⟩,
            [⟨1, "pain", 7, "Épicerie", .pending, none, 0⟩])
      ∧ ((⟨1, "pain", 7, "Épicerie", .pending, none, 0⟩ : GroceryItem).quantity = 7
          ∧ (⟨1, "pain", 7, "Épicerie", .pending, none, 0⟩ : GroceryItem).category = "Épicerie"
          ∧ (∀ qc : Int, 1 ≤ decQtyCallback qc)
          ∧ (∀ qc : Int, 1 ≤ qc → 1 ≤ incQtyCallback qc)) :=
  ⟨rfl,
    editItem_stores_quantity_verbatim
      [⟨1, "pain", 2, "Boulangerie", .pending, none, 0⟩] 1 "Épicerie" 7 ""
      ⟨1, "pain", 7, "Épicerie", .pending, none, 0⟩
      [⟨1, "pain", 7, "Épicerie", .pending, none, 0⟩] rfl⟩

/-- Counterexample to **C10** as stated: an editItem call with quantity -3
persists quantity -3, which is below the claimed minimum of 1, both in the
returned item and in the stored row. -/
theorem editItem_clamp_counterexample :
    editItem [⟨1, "pain", 2, "Boulangerie", .pending, none, 0⟩] 1 "Boulangerie" (-3) ""
        = .ok (⟨1, "pain", -3, "Boulangerie", .pending, none, 0⟩,
            [⟨1, "pain", -3, "Boulangerie", .pending, none, 0⟩])
      ∧ ¬(1 ≤ (⟨1, "pain", -3, "Boulangerie", .pending, none, 0⟩ : GroceryItem).quantity)
      ∧ findById [⟨1, "pain", -3, "Boulangerie", .pending, none, 0⟩] 1
          = some ⟨1, "pain", -3, "Boulangerie", .pending, none, 0⟩ := by
  refine ⟨rfl, by decide, by decide⟩

/-! ## Product cache (src/services/productCacheService.js) and the AI pipeline

The cache file is a JSON object keyed by normalized canonical name; a JS
object is modelled as an association list in insertion order. -/

/-- One cache entry: the corrected display name, its category and the
normalized variants that map to it. -/
structure CacheProduct where
  correctName : String
  category : String
  variants : List String
  deriving DecidableEq, Repr

/-- The product cache document. -/
abbrev ProductCache := List (String × CacheProduct)

/-- `productCacheService.normalizeText`: lowercase and trim. -/
def normalizeText (s : String) : String := lowerStr (trimStr s)

/-- `productCacheService.findProduct`: exact key match first, then the first
entry whose variant list contains the normalized text. -/
def findProduct (cache : ProductCache) (productName : String) : Option CacheProduct :=
  let normalized := normalizeText productName
  match cache.find? (fun e => e.1 = normalized) with
  | some e => some e.2
  | none => (cache.find? (fun e => e.2.variants.contains normalized)).map (fun e => e.2)

/-- A parsed grocery entry `{article, quantity, category}`. -/
structure ParsedGrocery where
  article : String
  quantity : Int
  category : String
  deriving DecidableEq, Repr

/-- `productCacheService.parseWithCache`: split on newlines, drop blank lines,
run `parseLineForProduct` and the cache lookup per line; hits become parsed
entries carrying the cached canonical name and category, misses pass through
as raw lines for the AI. -/
def parseWithCache (cache : ProductCache) (groceryText : String) :
    List ParsedGrocery × List String :=
  let lines := ((splitOnNl groceryText.toList).map List.asString).filter
    (fun l => trimStr l ≠ "")
  lines.foldl
    (fun acc line =>
      let pl := parseLineForProduct line
      match findProduct cache pl.productText with
      | some cp => (acc.1 ++ [⟨cp.correctName, pl.quantity, cp.category⟩], acc.2)
      | none => (acc.1, acc.2 ++ [line]))
    ([], [])

/-- A raw entry of the AI response array. -/
structure AiEntry where
  article : String
  quantityField : Option Int
  category : String
  deriving DecidableEq, Repr

/-- The possible shapes of one AI collaborator call, as seen by
`aiService.parseGroceryItems`: the call throws (network error), the text is
not JSON, the JSON is not an array, or it is an array of entries whose
`article`/`category` fields may be absent or empty (both falsy in JS) and
whose `quantity` may be absent or non-numeric (`parseInt` then yields NaN,
modelled as `none`). -/
inductive AiOutcome where
  | throws
  | nonJson
  | nonArray
  | array (entries : List AiEntry)

/-- The single error class thrown by the AI pipeline: every failure inside
`aiService.parseGroceryItems` is rethrown as one ParsingFailed-style error. -/
inductive ParseFailure where
  | parsingFailed
  deriving DecidableEq, Repr

/-- `parseInt(item.quantity) || 1`. -/
def qtyOrOne (q : Option Int) : Int :=
  match q with
  | none => 1
  | some v => if v = 0 then 1 else v

/-- `aiService.parseGroceryItems`: fails on a thrown call, non-JSON text, a
non-array JSON value, or any entry with a falsy article or category;
otherwise trims the fields and defaults the quantity to 1. -/
def parseGroceryItems : AiOutcome → Except ParseFailure (List ParsedGrocery)
  | .throws => .error .parsingFailed
  | .nonJson => .error .parsingFailed
  | .nonArray => .error .parsingFailed
  | .array es =>
    if es.any (fun e => e.article = "" ∨ e.category = "") then .error .parsingFailed
    else .ok (es.map (fun e => ⟨trimStr e.article, qtyOrOne e.quantityField, trimStr e.category⟩))

/-- The save loop of the auto-add `parseItemsForConfirmation`: skip entries
missing an article or category, construct each remaining GroceryItem with
status pending and the fresh batch id (the constructor coerces a zero
quantity to 1), and append it to the store.  Fresh ids are sequential rowids.
The `original_input` passed to the constructor is not among the fields the
constructor keeps, so it does not appear on the rows. -/
def saveParsedItems (parsed : List ParsedGrocery) (batchId : String)
    (nextId now : Nat) (s : Store) : List GroceryItem × Store :=
  match parsed with
  | [] => ([], s)
  | p :: rest =>
    if p.article = "" ∨ p.category = "" then saveParsedItems rest batchId nextId now s
    else
      let item : GroceryItem :=
        ⟨nextId, p.article, (if p.quantity = 0 then 1 else p.quantity), p.category,
          .pending, some batchId, now⟩
      let r := saveParsedItems rest batchId (nextId + 1) now (s ++ [item])
      (item :: r.1, r.2)

/-- The auto-add `groceryService.parseItemsForConfirmation`: resolve against
the cache, call the AI only when some lines missed, and auto-add the combined
entries to the store under a fresh batch id.  The AI call happens before any
item is saved, so a thrown AI error propagates with the store untouched. -/
def parseItemsForConfirmation (cache : ProductCache) (s : Store)
    (groceryText : String) (ai : AiOutcome) (batchId : String) (nextId now : Nat) :
    Except ParseFailure (String × List GroceryItem) × Store :=
  let res := parseWithCache cache groceryText
  match (if res.2 ≠ [] then parseGroceryItems ai else .ok []) with
  | .error e => (.error e, s)
  | .ok geminiItems =>
    let parsed := res.1 ++ geminiItems
    let r := saveParsedItems parsed batchId nextId now s
    (.ok (batchId, r.1), r.2)

/-- **C6**: when any input line misses the cache and the AI collaborator call
fails — it throws, returns non-JSON, a non-array, or an entry missing a
required field — the whole batch parse surfaces the single ParsingFailed
error and the store is unchanged: no item at all is persisted, including the
already-resolved cache hits. -/
theorem aiFailure_atomic (cache : ProductCache) (s : Store) (text : String)
    (ai : AiOutcome) (batchId : String) (nextId now : Nat)
    (hmiss : (parseWithCache cache text).2 ≠ [])
    (hfail : ∃ e, parseGroceryItems ai = .error e) :
    parseItemsForConfirmation cache s text ai batchId nextId now
      = (.error .parsingFailed, s) := by
  obtain ⟨e, he⟩ := hfail
  cases e
  unfold parseItemsForConfirmation
  dsimp only
  rw [if_pos hmiss, he]

/-- Witness for `aiFailure_atomic`: with a cache knowing "pomme" and the
input "2 pomme" plus the unknown line "xyzzy", a throwing AI call fails the
whole parse and leaves the one pre-existing store row untouched — the cache
hit for "2 pomme" is discarded. -/
theorem aiFailure_atomic_witness :
    (parseWithCache [("pommes", ⟨"pommes", "Fruits et légumes", ["pomme"]⟩)]
        "2 pomme\nxyzzy").2 ≠ []
      ∧ parseItemsForConfirmation
          [("pommes", ⟨"pommes", "Fruits et légumes", ["pomme"]⟩)]
          [⟨1, "sel", 1, "Épicerie", .pending, none, 0⟩]
          "2 pomme\nxyzzy" .throws "ab12cd34" 2 5
        = (.error .parsingFailed, [⟨1, "sel", 1, "Épicerie", .pending, none, 0⟩]) :=
  ⟨by decide,
    aiFailure_atomic [("pommes", ⟨"pommes", "Fruits et légumes", ["pomme"]⟩)]
      [⟨1, "sel", 1, "Épicerie", .pending, none, 0⟩]
      "2 pomme\nxyzzy" .throws "ab12cd34" 2 5 (by decide) ⟨.parsingFailed, rfl⟩⟩

/-! ## getAllItemsSorted and category grouping

`getAllItemsSorted` separates found items, sorts the remaining (active) items
with the stable `Array.prototype.sort` by the comparator
`(a.category || '').toLowerCase().localeCompare(...)`, and groups them by
category into a JS object (an insertion-ordered association list);
`groupItemsByCategory` keys an item by its category, falling back to the
label "Sans catégorie" for a falsy category. -/

/-- Lexicographic order on character lists by code point: the model of the
`localeCompare`-based comparator on lowercased category strings. -/
def lexLeCh : List Char → List Char → Bool
  | [], _ => true
  | _ :: _, [] => false
  | a :: as, b :: bs => if a = b then lexLeCh as bs else decide (a < b)

lemma lexLeCh_refl : ∀ x : List Char, lexLeCh x x = true := by
  intro x
  induction x with
  | nil => rfl
  | cons a as ih => rw [lexLeCh, if_pos rfl]; exact ih

lemma lexLeCh_total : ∀ x y : List Char, lexLeCh x y = true ∨ lexLeCh y x = true := by
  intro x
  induction x with
  | nil => intro y; exact Or.inl rfl
  | cons a as ih =>
    intro y
    cases y with
    | nil => exact Or.inr rfl
    | cons b bs =>
      by_cases hab : a = b
      · rw [lexLeCh, lexLeCh, if_pos hab, if_pos hab.symm]
        exact ih bs
      · rcases lt_trichotomy a b with h | h | h
        · exact Or.inl (by rw [lexLeCh, if_neg hab]; simpa using h)
        · exact absurd h hab
        · refine Or.inr (by rw [lexLeCh, if_neg (fun hh => hab hh.symm)]; simpa using h)

lemma lexLeCh_trans : ∀ x y z : List Char,
    lexLeCh x y = true → lexLeCh y z = true → lexLeCh x z = true := by
  intro x
  induction x with
  | nil => intro y z _ _; rfl
  | cons a as ih =>
    intro y z hxy hyz
    cases y with
    | nil => simp [lexLeCh] at hxy
    | cons b bs =>
      cases z with
      | nil => simp [lexLeCh] at hyz
      | cons c cs =>
        rw [lexLeCh] at hxy hyz ⊢
        by_cases hab : a = b
        · rw [if_pos hab] at hxy
          by_cases hbc : b = c
          · rw [if_pos hbc] at hyz
            rw [if_pos (hab.trans hbc)]
            exact ih bs cs hxy hyz
          · rw [if_neg hbc] at hyz
            have hlt : b < c := by simpa using hyz
            have hac : a ≠ c := fun hh => hbc (by rw [← hab, hh])
            rw [if_neg hac]
            simpa using hab ▸ hlt
        · rw [if_neg hab] at hxy
          have hab' : a < b := by simpa using hxy
          by_cases hbc : b = c
          · have hac : a < c := hbc ▸ hab'
            rw [if_neg (ne_of_lt hac)]
            simpa using hac
          · rw [if_neg hbc] at hyz
            have hbc' : b < c := by simpa using hyz
            have hac : a < c := lt_trans hab' hbc'
            rw [if_neg (ne_of_lt hac)]
            simpa using hac

/-- The sort key of an item: its category string, lowercased. -/
def catKey (it : GroceryItem) : List Char := it.category.toList.map asciiLower

/-- The comparator of the active-item sort: lowercased categories compared
for order. -/
def catLe (a b : GroceryItem) : Prop := lexLeCh (catKey a) (catKey b) = true

instance : DecidableRel catLe := fun a b =>
  inferInstanceAs (Decidable (lexLeCh (catKey a) (catKey b) = true))

instance : IsTotal GroceryItem catLe := ⟨fun a b => lexLeCh_total (catKey a) (catKey b)⟩

instance : IsTrans GroceryItem catLe :=
  ⟨fun _ _ _ hab hbc => lexLeCh_trans _ _ _ hab hbc⟩

/-- The grouping key: `item.category || 'Sans catégorie'`. -/
def groupKey (it : GroceryItem) : String :=
  if it.category = "" then "Sans catégorie" else it.category

/-- Append an item under its key in the insertion-ordered object. -/
def addToGroup : List (String × List GroceryItem) → String → GroceryItem →
    List (String × List GroceryItem)
  | [], k, it => [(k, [it])]
  | (k', l) :: rest, k, it =>
    if k' = k then (k', l ++ [it]) :: rest
    else (k', l) :: addToGroup rest k it

/-- `groceryService.groupItemsByCategory`: reduce the items into an object
mapping each category to its items in list order. -/
def groupItemsByCategory (items : List GroceryItem) :
    List (String × List GroceryItem) :=
  items.foldl (fun acc it => addToGroup acc (groupKey it) it) []

/-- Read one key of the grouped object (an absent key reads as the empty
list). -/
def groupGet (g : List (String × List GroceryItem)) (c : String) :
    List GroceryItem :=
  match g.find? (fun e => e.1 = c) with
  | some e => e.2
  | none => []

/-- The record returned by `getAllItemsSorted`. -/
structure SortedItems where
  allItems : List GroceryItem
  activeItems : List GroceryItem
  foundItems : List GroceryItem
  grouped : List (String × List GroceryItem)

/-- `groceryService.getAllItemsSorted`: findAll, split off found items, sort
the active items stably by lowercased category, and group them. -/
def getAllItemsSorted (s : Store) : SortedItems :=
  let allItems := findAll s
  let foundItems := allItems.filter (fun it => it.status = .found)
  let activeItems :=
    (allItems.filter (fun it => it.status ≠ .found)).insertionSort catLe
  { allItems := allItems
    activeItems := activeItems
    foundItems := foundItems
    grouped := groupItemsByCategory activeItems }

/-! ### Grouping and stability lemmas -/

lemma groupGet_addToGroup (acc : List (String × List GroceryItem))
    (k : String) (it : GroceryItem) (c : String) :
    groupGet (addToGroup acc k it) c
      = groupGet acc c ++ (if k = c then [it] else []) := by
  induction acc with
  | nil =>
    by_cases hk : k = c
    · simp [addToGroup, groupGet, hk]
    · simp [addToGroup, groupGet, hk]
  | cons e rest ih =>
    obtain ⟨k', l⟩ := e
    rw [addToGroup]
    by_cases hk' : k' = k
    · rw [if_pos hk']
      by_cases hc : k' = c
      · have hkc : k = c := hk' ▸ hc
        simp [groupGet, List.find?_cons_of_pos, hc, hkc]
      · have hkc : ¬k = c := fun hh => hc (hk'.trans hh)
        simp [groupGet, List.find?_cons_of_neg, hc, hkc]
    · rw [if_neg hk']
      by_cases hc : k' = c
      · have hkc : ¬k = c := fun hh => hk' (hc.trans hh.symm)
        simp [groupGet, List.find?_cons_of_pos, hc, hkc]
      · have h1 : groupGet ((k', l) :: addToGroup rest k it) c
            = groupGet (addToGroup rest k it) c := by
          simp [groupGet, List.find?_cons_of_neg, hc]
        have h2 : groupGet ((k', l) :: rest) c = groupGet rest c := by
          simp [groupGet, List.find?_cons_of_neg, hc]
        rw [h1, h2, ih]

lemma groupGet_foldl (items : List GroceryItem) :
    ∀ (acc : List (String × List GroceryItem)) (c : String),
      groupGet (items.foldl (fun acc it => addToGroup acc (groupKey it) it) acc) c
        = groupGet acc c ++ items.filter (fun it => groupKey it = c) := by
  induction items with
  | nil => intro acc c; simp
  | cons it items ih =>
    intro acc c
    rw [List.foldl_cons, ih, groupGet_addToGroup]
    by_cases hk : groupKey it = c
    · rw [if_pos hk, List.filter_cons_of_pos (by simpa using hk), List.append_assoc]
      simp
    · rw [if_neg hk, List.filter_cons_of_neg (by simpa using hk), List.append_nil]

lemma groupGet_groupItemsByCategory (items : List GroceryItem) (c : String) :
    groupGet (groupItemsByCategory items) c
      = items.filter (fun it => groupKey it = c) := by
  rw [groupItemsByCategory, groupGet_foldl]
  simp [groupGet]

lemma filter_orderedInsert_pos {α : Type} (r : α → α → Prop) [DecidableRel r]
    (p : α → Bool) (a : α) :
    ∀ l : List α, p a = true → (∀ b ∈ l, p b = true → r a b) →
      (l.orderedInsert r a).filter p = a :: l.filter p := by
  intro l
  induction l with
  | nil => intro hpa _; simp [List.orderedInsert, hpa]
  | cons b t ih =>
    intro hpa ht
    rw [List.orderedInsert]
    by_cases hr : r a b
    · rw [if_pos hr, List.filter_cons, List.filter_cons]
      simp [hpa]
    · rw [if_neg hr]
      have hpb : p b = false := by
        cases hpb : p b
        · rfl
        · exact absurd (ht b (List.mem_cons_self b t) hpb) hr
      rw [List.filter_cons_of_neg (by simp [hpb]),
        List.filter_cons_of_neg (by simp [hpb])]
      exact ih hpa (fun b' hb' => ht b' (List.mem_cons_of_mem b hb'))

lemma filter_orderedInsert_neg {α : Type} (r : α → α → Prop) [DecidableRel r]
    (p : α → Bool) (a : α) (l : List α) (hpa : p a = false) :
    (l.orderedInsert r a).filter p = l.filter p := by
  rw [List.orderedInsert_eq_take_drop, List.filter_append,
    List.filter_cons_of_neg (by simp [hpa]), ← List.filter_append,
    List.takeWhile_append_dropWhile]

/-- Stability of the stable sort on tied elements: a filter whose members are
pairwise tied under the sort relation reads the same before and after the
sort. -/
lemma filter_insertionSort {α : Type} (r : α → α → Prop) [DecidableRel r]
    (p : α → Bool) (hp : ∀ a b, p a = true → p b = true → r a b) :
    ∀ l : List α, (l.insertionSort r).filter p = l.filter p := by
  intro l
  induction l with
  | nil => rfl
  | cons a t ih =>
    rw [List.insertionSort]
    by_cases hpa : p a
    · rw [filter_orderedInsert_pos r p a _ hpa
        (fun b _ hpb => hp a b hpa hpb), ih,
        List.filter_cons_of_pos (by simp [hpa])]
    · have hpa' : p a = false := by simpa using hpa
      rw [filter_orderedInsert_neg r p a _ hpa', ih,
        List.filter_cons_of_neg (by simp [hpa'])]

/-- **C8 (amended)**: getAllItemsSorted never places a found-status item into
the grouped map or activeItems (found items appear only in foundItems); the
remaining items are sorted case-insensitively by category (a stable sort), and
the item order within each category is the findAll order — created_at
descending, i.e. newest first, the reverse of insertion order — and therefore
independent of item status. -/
theorem listByCategoryGrouped_spec (s : Store)
    (hne : ∀ it ∈ s, it.category ≠ "") :
    (∀ it ∈ (getAllItemsSorted s).activeItems, it.status ≠ .found)
      ∧ (∀ c : String, ∀ it ∈ groupGet (getAllItemsSorted s).grouped c,
          it.status ≠ .found)
      ∧ (∀ it ∈ (getAllItemsSorted s).foundItems, it.status = .found)
      ∧ (getAllItemsSorted s).activeItems.Pairwise catLe
      ∧ (∀ c : String, groupGet (getAllItemsSorted s).grouped c
          = (findAll s).filter (fun it => it.status ≠ .found ∧ it.category = c))
      ∧ (∀ c : String, (groupGet (getAllItemsSorted s).grouped c).Pairwise createdDesc) := by
  have hmem_s : ∀ it : GroceryItem,
      it ∈ ((findAll s).filter (fun it => it.status ≠ .found)).insertionSort catLe →
      it ∈ s := by
    intro it hmem
    have h1 := (List.mem_insertionSort catLe).mp hmem
    have h2 := List.mem_of_mem_filter h1
    exact (List.mem_insertionSort createdDesc).mp h2
  have hmain : ∀ c : String, groupGet (getAllItemsSorted s).grouped c
      = (findAll s).filter (fun it => it.status ≠ .found ∧ it.category = c) := by
    intro c
    show groupGet (groupItemsByCategory
        (((findAll s).filter (fun it => it.status ≠ .found)).insertionSort catLe)) c = _
    rw [groupGet_groupItemsByCategory]
    have hstep1 :
        (((findAll s).filter (fun it => it.status ≠ .found)).insertionSort catLe).filter
            (fun it => groupKey it = c)
          = (((findAll s).filter (fun it => it.status ≠ .found)).insertionSort catLe).filter
            (fun it => it.category = c) := by
      apply List.filter_congr
      intro it hmem
      have : it.category ≠ "" := hne it (hmem_s it hmem)
      simp [groupKey, this]
    have hstep2 :
        (((findAll s).filter (fun it => it.status ≠ .found)).insertionSort catLe).filter
            (fun it => it.category = c)
          = ((findAll s).filter (fun it => it.status ≠ .found)).filter
            (fun it => it.category = c) :=
      filter_insertionSort catLe _
        (fun a b ha hb => by
          have ha' : a.category = c := by simpa using ha
          have hb' : b.category = c := by simpa using hb
          show lexLeCh (catKey a) (catKey b) = true
          rw [catKey, catKey, ha', hb']
          exact lexLeCh_refl _) _
    rw [hstep1, hstep2, List.filter_filter]
    apply List.filter_congr
    intro it _
    by_cases h1 : it.status = .found
    · simp [h1]
    · by_cases h2 : it.category = c <;> simp [h1, h2]
  refine ⟨?_, ?_, ?_, ?_, hmain, ?_⟩
  · intro it hmem
    have h1 := (List.mem_insertionSort catLe).mp hmem
    simpa using (List.mem_filter.mp h1).2
  · intro c it hmem
    rw [hmain c] at hmem
    have := (List.mem_filter.mp hmem).2
    simp at this
    exact this.1
  · intro it hmem
    simpa using (List.mem_filter.mp hmem).2
  · exact List.sorted_insertionSort catLe _
  · intro c
    rw [hmain c]
    exact (List.sorted_insertionSort createdDesc s).filter _

/-- A concrete store for the grouping claims: one found item and two pending
items of a shared category created at distinct times. -/
def groupDemoStore : Store :=
  [⟨1, "riz", 1, "Épicerie", .pending, none, 1⟩,
    ⟨2, "sel", 1, "Épicerie", .pending, none, 2⟩,
    ⟨3, "beurre", 1, "Produits laitiers", .found, none, 3⟩]

/-- Witness for `listByCategoryGrouped_spec` on `groupDemoStore`. -/
theorem listByCategoryGrouped_spec_witness :
    (∀ it ∈ groupDemoStore, it.category ≠ "")
      ∧ ((∀ it ∈ (getAllItemsSorted groupDemoStore).activeItems, it.status ≠ .found)
        ∧ (∀ c : String, ∀ it ∈ groupGet (getAllItemsSorted groupDemoStore).grouped c,
            it.status ≠ .found)
        ∧ (∀ it ∈ (getAllItemsSorted groupDemoStore).foundItems, it.status = .found)
        ∧ (getAllItemsSorted groupDemoStore).activeItems.Pairwise catLe
        ∧ (∀ c : String, groupGet (getAllItemsSorted groupDemoStore).grouped c
            = (findAll groupDemoStore).filter
              (fun it => it.status ≠ .found ∧ it.category = c))
        ∧ (∀ c : String,
            (groupGet (getAllItemsSorted groupDemoStore).grouped c).Pairwise createdDesc)) :=
  ⟨by decide, listByCategoryGrouped_spec groupDemoStore (by decide)⟩

/-- Counterexample to the within-category ordering of **C8** as stated: with
two pending items of the same category, riz created first (created_at 1) and
sel second (created_at 2), the grouped list for the category is newest first
— sel before riz — not the claimed insertion/creation order. -/
theorem withinCategory_order_counterexample :
    groupGet (getAllItemsSorted
        [⟨1, "riz", 1, "Épicerie", .pending, none, 1⟩,
          ⟨2, "sel", 1, "Épicerie", .pending, none, 2⟩]).grouped "Épicerie"
      = [⟨2, "sel", 1, "Épicerie", .pending, none, 2⟩,
          ⟨1, "riz", 1, "Épicerie", .pending, none, 1⟩]
      ∧ ([⟨2, "sel", 1, "Épicerie", .pending, none, 2⟩,
          ⟨1, "riz", 1, "Épicerie", .pending, none, 1⟩] : List GroceryItem)
        ≠ [⟨1, "riz", 1, "Épicerie", .pending, none, 1⟩,
            ⟨2, "sel", 1, "Épicerie", .pending, none, 2⟩] := by
  refine ⟨by decide, by decide⟩

end GroceryApp
